import Mathlib

/-
Verification of the hyperion voro++ wrapper (src/hyperion/grid/voropp_wrap.cc).

The C++ source is shallowly embedded below.  Floating-point doubles are
modelled as exact rationals (ℚ) except for the block-grid sizer, whose cube
roots force a real-number (ℝ) model.  The external voro++ engine is out of
scope: its per-cell outputs (neighbour ids, vertex coordinates, volume,
face-vertex topology) are taken as inputs of the embedded functions, exactly
as the wrapper consumes them.
-/

namespace Hyperion

/-- A 3D point, mirroring a coordinate triple in the C++ code. -/
abbrev Point : Type := ℚ × ℚ × ℚ

/-! ### tetra_volume (voropp_wrap.cc lines 119-136)

The C++ builds the 3x3 matrix of edge vectors `v1-v0, v2-v0, v3-v0` (rows)
and returns `|a(ei-fh) - b(di-fg) + c(dh-eg)| / 6`. -/

/-- Embedding of `tetra_volume`: the cofactor-expansion determinant formula
from the source, taken in absolute value and divided by 6. -/
def tetra_volume (v0 v1 v2 v3 : Point) : ℚ :=
  let a := v1.1 - v0.1
  let b := v1.2.1 - v0.2.1
  let c := v1.2.2 - v0.2.2
  let d := v2.1 - v0.1
  let e := v2.2.1 - v0.2.1
  let f := v2.2.2 - v0.2.2
  let g := v3.1 - v0.1
  let h := v3.2.1 - v0.2.1
  let i := v3.2.2 - v0.2.2
  |a*(e*i - f*h) - b*(d*i - f*g) + c*(d*h - e*g)| / 6

/-! ### Cumulative tetra volumes (voropp_wrap.cc lines 302-316)

The emission loop keeps a running sum `vol += t_vol` and pushes each partial
sum onto `c_vol`. -/

/-- Helper for the running cumulative sum: `vol += t_vol; c_vol.push_back(vol)`. -/
def cumVolsAux : ℚ → List ℚ → List ℚ
  | _, [] => []
  | acc, v :: rest => (acc + v) :: cumVolsAux (acc + v) rest

/-- The cumulative-volume array `c_vol` built from the emitted tetra volumes. -/
def cumVols (vs : List ℚ) : List ℚ := cumVolsAux 0 vs

/-- The list of volumes of a list of tetrahedra (vertex quadruples), in
emission order, as fed into the cumulative sum by the emission loop. -/
def tetraVolsOf (ts : List (Point × Point × Point × Point)) : List ℚ :=
  ts.map fun q => tetra_volume q.1 q.2.1 q.2.2.1 q.2.2.2

/-! ### sample_point_in_tetra (voropp_wrap.cc lines 139-165)

Three uniform draws `s,t,u` are folded from the unit cube into the unit
simplex, then the barycentric combination of the four tetra vertices is
taken. -/

/-- The second folding stage of `sample_point_in_tetra`: the two chained
conditionals on `t + u > 1` and `s + t + u > 1`, applied after the first
reflection.  Mirrors the C++ assignment order (in each branch every
right-hand side reads the pre-assignment values). -/
def fold_tu (s t u : ℚ) : ℚ × ℚ × ℚ :=
  if t + u > 1 then (s, 1 - u, 1 - s - t)
  else if s + t + u > 1 then (1 - t - u, t, s + t + u - 1)
  else (s, t, u)

/-- Embedding of the cube-to-simplex folding performed on `s, t, u`
by `sample_point_in_tetra` before the barycentric combination: first the
reflection on `s + t > 1`, then the second stage. -/
def fold_stu (s t u : ℚ) : ℚ × ℚ × ℚ :=
  if s + t > 1 then fold_tu (1 - s) (1 - t) u else fold_tu s t u

/-- Embedding of `sample_point_in_tetra`: fold the draws, set
`a = 1 - s - t - u`, and return `p0*a + p1*s + p2*t + p3*u` componentwise. -/
def sample_point_in_tetra (s t u : ℚ) (p0 p1 p2 p3 : Point) : Point :=
  let f := fold_stu s t u
  let s := f.1
  let t := f.2.1
  let u := f.2.2
  let a := 1 - s - t - u
  (p0.1*a + p1.1*s + p2.1*t + p3.1*u,
   p0.2.1*a + p1.2.1*s + p2.2.1*t + p3.2.1*u,
   p0.2.2*a + p1.2.2*s + p2.2.2*t + p3.2.2*u)

/-! ### add_walls (voropp_wrap.cc lines 76-116)

Two sequential `if` blocks on the tag string; each validates the parameter
count and the radius and either throws `std::invalid_argument` or installs
the wall. -/

/-- A wall object, as installed into the container by `add_walls`. -/
inductive Wall : Type
  | sphere (x y z r : ℚ)
  | cylinder (x y z ax ay az r : ℚ)
  deriving DecidableEq

/-- The first `if` block of `add_walls` (the sphere case). -/
def add_walls_sphere (wall_str : String) (wall_args : List ℚ) :
    Except String (Option Wall) :=
  if wall_str = "sphere" then
    if wall_args.length ≠ 4 then
      .error "invalid number of arguments for a sphere wall, exactly 4 are needed"
    else if wall_args.getD 3 0 ≤ 0 then
      .error "the radius of a sphere wall must be strictly positive"
    else
      .ok (some (.sphere (wall_args.getD 0 0) (wall_args.getD 1 0)
        (wall_args.getD 2 0) (wall_args.getD 3 0)))
  else .ok none

/-- The second `if` block of `add_walls` (the cylinder case), threaded after
the sphere block. -/
def add_walls_cylinder (wall_str : String) (wall_args : List ℚ)
    (w : Option Wall) : Except String (Option Wall) :=
  if wall_str = "cylinder" then
    if wall_args.length ≠ 7 then
      .error "invalid number of arguments for a cylinder wall, exactly 7 are needed"
    else if wall_args.getD 6 0 ≤ 0 then
      .error "the radius of a cylinder wall must be strictly positive"
    else
      .ok (some (.cylinder (wall_args.getD 0 0) (wall_args.getD 1 0)
        (wall_args.getD 2 0) (wall_args.getD 3 0) (wall_args.getD 4 0)
        (wall_args.getD 5 0) (wall_args.getD 6 0)))
  else .ok w

/-- Embedding of `add_walls`: run the sphere block, then the cylinder block;
an exception in either aborts. -/
def add_walls (wall_str : String) (wall_args : List ℚ) :
    Except String (Option Wall) :=
  match add_walls_sphere wall_str wall_args with
  | .error e => .error e
  | .ok w => add_walls_cylinder wall_str wall_args w

/-- Whether an `Except` value is the error case (a thrown C++ exception). -/
def exceptIsErr {ε α : Type} : Except ε α → Bool
  | .error _ => true
  | .ok _ => false

/-! ### Tetra decomposition of the face-vertex list (voropp_wrap.cc 286-316)

`f_vert` is flat: for each face, a vertex count followed by that many vertex
indices.  The while loop walks it with `j += nfv + 1`; a face containing
vertex index 0 is skipped; otherwise the inner loop over
`k = j+2 .. j+nfv-1` pushes the quadruple
`(0, f_vert[j+1], f_vert[k], f_vert[k+1])`. -/

/-- Embedding of the face-walking while loop: the flat `f_vert` list is
consumed one face at a time.  Writing `rest` for the list after the count,
`f_vert[j+1+i]` is `rest.getD i 0` and the inner loop index `k = j+2+i`
runs for `i < nfv - 2`. -/
def decompFaces : List Nat → List (Nat × Nat × Nat × Nat)
  | [] => []
  | nfv :: rest =>
    (if 0 ∈ rest.take nfv then []
     else (List.range (nfv - 2)).map fun i =>
       (0, rest.getD 0 0, rest.getD (i + 1) 0, rest.getD (i + 2) 0)) ++
    decompFaces (rest.drop nfv)
  termination_by l => l.length
  decreasing_by simp; omega

/-- The face-vertex encoding produced by voro++ `face_vertices`: for each
face, its vertex count followed by its vertex indices. -/
def encodeFaces (faces : List (List Nat)) : List Nat :=
  (faces.map fun f => f.length :: f).flatten

/-- Modelled from the spec wording of the Tetra-Sampler: skip any face
containing vertex index 0; for each retained face with `k` vertices emit
`k - 2` tetrahedra, the i-th being `(0, face[0], face[i], face[i+1])` for
`i = 1 .. k-2`. -/
def tetraFanSpec (faces : List (List Nat)) : List (Nat × Nat × Nat × Nat) :=
  (faces.map fun f =>
    if 0 ∈ f then []
    else (List.range (f.length - 2)).map fun i =>
      (0, f.getD 0 0, f.getD (i + 1) 0, f.getD (i + 2) 0)).flatten

/-! ### Volume-proportional tetra selection and redraw loop (lines 317-334)

`c_factor = c_vol.back() / (RAND_MAX + 1.0)`; each iteration draws
`r_vol = rand() * c_factor`, finds `upper_bound(c_vol, r_vol)`, redraws when
the search lands past the end, otherwise samples a point in the selected
tetrahedron (consuming three further draws) and increments `i`. -/

/-- The C library constant `RAND_MAX` (the conventional 31-bit value). -/
def RAND_MAX : ℚ := 2147483647

/-- Index form of `std::upper_bound`: the position of the first element
greater than `x` (equal to `l.length` when the search lands past the end). -/
def upper_bound_idx (l : List ℚ) (x : ℚ) : Nat :=
  (l.takeWhile fun y => decide (y ≤ x)).length

/-- The vertex-coordinate triple with index `k` in a flat coordinate list,
as read by `tmp_vertices->begin() + k*3`. -/
def vertexTriple (verts : List ℚ) (k : Nat) : Point :=
  (verts.getD (3 * k) 0, verts.getD (3 * k + 1) 0, verts.getD (3 * k + 2) 0)

/-- Embedding of the per-cell sampling loop.  `rands` is the stream of
`std::rand()` draws and `ri` the next unconsumed position; a redraw consumes
one draw, a successful sample consumes four (selection plus `s,t,u`).  The
C++ loop has no exit on a failed search, so the embedding carries fuel and
returns `none` when the loop has not terminated within it. -/
def sampleCellLoop (cvol : List ℚ) (cfactor : ℚ) (tvert : List Nat)
    (verts : List ℚ) (nsamples : Nat) (rands : Nat → ℚ) :
    Nat → Nat → List Point → Nat → Option (List Point × Nat)
  | _, _, _, 0 => none
  | ri, i, acc, fuel + 1 =>
    if i < nsamples then
      let r_vol := rands ri * cfactor
      let t_idx := upper_bound_idx cvol r_vol
      if t_idx = cvol.length then
        sampleCellLoop cvol cfactor tvert verts nsamples rands (ri + 1) i acc fuel
      else
        let p := sample_point_in_tetra (rands (ri + 1)) (rands (ri + 2))
          (rands (ri + 3))
          (vertexTriple verts (tvert.getD (4 * t_idx) 0))
          (vertexTriple verts (tvert.getD (4 * t_idx + 1) 0))
          (vertexTriple verts (tvert.getD (4 * t_idx + 2) 0))
          (vertexTriple verts (tvert.getD (4 * t_idx + 3) 0))
        sampleCellLoop cvol cfactor tvert verts nsamples rands (ri + 4) (i + 1)
          (acc ++ [p]) fuel
    else some (acc, ri)

/-- Embedding of the whole per-cell sampling block: compute
`c_factor = c_vol.back() / (RAND_MAX + 1.0)` and run the loop from `i = 0`.
(`c_vol.back()` on an empty `c_vol` is undefined behaviour in the C++;
`getLast?.getD 0` stands in for that read.) -/
def sampleCell (cvol : List ℚ) (tvert : List Nat) (verts : List ℚ)
    (nsamples : Nat) (rands : Nat → ℚ) (ri fuel : Nat) :
    Option (List Point × Nat) :=
  sampleCellLoop cvol (cvol.getLast?.getD 0 / (RAND_MAX + 1)) tvert verts
    nsamples rands ri 0 [] fuel

/-! ### Neighbour symmetrization (voropp_wrap.cc lines 341-348)

```
for (idx = 0; idx < nsites; ++idx)
  for (j = 0; j < n_list[idx].size(); ++j)
    if (n_list[idx][j] >= 0 && idx not in n_list[n_list[idx][j]])
      n_list[n_list[idx][j]].push_back(idx);
```
The inner bound `n_list[idx].size()` is re-read every iteration, but the
body never appends to `n_list[idx]` itself (proved below), so the bound is
fixed at entry to the inner loop; the embedding runs the inner loop on a
fuel equal to that entry length, which is therefore exact. -/

/-- Entry `i` of the list-of-lists (`n_list[i]`; out of range reads give
`[]`, which the well-formedness hypotheses make unreachable). -/
def nthList (ls : List (List Int)) (i : Nat) : List Int := ls.getD i []

/-- One inner-loop body of the symmetrizer: given the current element `v` of
`n_list[idx]`, if `v >= 0` and `idx` is missing from `n_list[v]`, append it. -/
def symAppend (lists : List (List Int)) (idx : Nat) (v : Int) :
    List (List Int) :=
  if 0 ≤ v then
    if (idx : Int) ∈ nthList lists v.toNat then lists
    else lists.set v.toNat (nthList lists v.toNat ++ [(idx : Int)])
  else lists

/-- The inner loop over `j`, with the re-read bound `n_list[idx].size()`
and a structural fuel. -/
def symInnerF (idx : Nat) : Nat → Nat → List (List Int) → List (List Int)
  | 0, _, lists => lists
  | fuel + 1, j, lists =>
    if h : j < (nthList lists idx).length then
      symInnerF idx fuel (j + 1)
        (symAppend lists idx ((nthList lists idx).get ⟨j, h⟩))
    else lists

/-- The inner loop for one site, started at `j = 0` with fuel equal to the
entry length of `n_list[idx]` (exact, since the body never changes
`n_list[idx]`). -/
def symInner (idx : Nat) (lists : List (List Int)) : List (List Int) :=
  symInnerF idx (nthList lists idx).length 0 lists

/-- Embedding of the whole symmetrization pass: the outer loop over all
site indices in order. -/
def symmetrize (lists : List (List Int)) : List (List Int) :=
  (List.range lists.length).foldl (fun ls idx => symInner idx ls) lists

/-- Well-formedness of the neighbour lists: every non-negative entry is a
site id below `n` (the C++ indexes `n_list[n_list[idx][j]]` unchecked). -/
def WFLists (n : Nat) (ls : List (List Int)) : Prop :=
  ∀ a : Nat, ∀ v : Int, v ∈ nthList ls a → 0 ≤ v → v.toNat < n

/-- List growth by appending at the end, as `push_back` produces. -/
def grows (l l2 : List Int) : Prop := ∃ t, l2 = l ++ t

/-! ### Ragged-to-dense packing (voropp_wrap.cc lines 350-377)

`*max_nn = std::max_element(n_list.begin(), n_list.end(), size_cmp)->size()`
dereferences the result iterator, which is past-the-end for an empty
vector; the embedding returns `none` there.  Rows are then copied and the
tail filled with the sentinel `-10` (neighbours) or NaN (vertices). -/

/-- Embedding of the `std::max_element(..., size_cmp)->size()` reduction:
the maximal list length, or `none` (an invalid dereference) when there are
no sites. -/
def max_element_size {α : Type} (ls : List (List α)) : Option Nat :=
  (ls.map List.length).max?

/-- Embedding of the neighbour-row packing: each site row is its list
followed by the sentinel `-10` up to the common width `max_nn`. -/
def packNeighbours (ls : List (List Int)) : List (List Int) :=
  ls.map fun l =>
    l ++ List.replicate ((max_element_size ls).getD 0 - l.length) (-10)

/-- Embedding of the vertex-row packing.  The C++ pads with
`std::numeric_limits<double>::quiet_NaN()`; NaN has no rational model, so a
padded slot is `none` and a data slot `some x`. -/
def packVertices (vs : List (List ℚ)) : List (List (Option ℚ)) :=
  vs.map fun l =>
    l.map some ++
      List.replicate ((max_element_size vs).getD 0 - l.length) (none : Option ℚ)

/-! ### Bounding boxes (voropp_wrap.cc lines 259-274)

`tmp_min`/`tmp_max` start at the first vertex triple and the loop from
`i = 1` to `size/3` takes the componentwise min/max. -/

/-- Embedding of the bounding-box minimum reduction (an empty vertex list is
undefined behaviour in the C++; the `getD` reads stand in for it). -/
def bboxMin (verts : List ℚ) : Point :=
  ((List.range (verts.length / 3)).drop 1).foldl
    (fun m i =>
      (min m.1 (verts.getD (i * 3) 0),
       min m.2.1 (verts.getD (i * 3 + 1) 0),
       min m.2.2 (verts.getD (i * 3 + 2) 0)))
    (verts.getD 0 0, verts.getD 1 0, verts.getD 2 0)

/-- Embedding of the bounding-box maximum reduction. -/
def bboxMax (verts : List ℚ) : Point :=
  ((List.range (verts.length / 3)).drop 1).foldl
    (fun m i =>
      (max m.1 (verts.getD (i * 3) 0),
       max m.2.1 (verts.getD (i * 3 + 1) 0),
       max m.2.2 (verts.getD (i * 3 + 2) 0)))
    (verts.getD 0 0, verts.getD 1 0, verts.getD 2 0)

/-! ### The whole wrapper call (voropp_wrap.cc lines 168-398)

The voro++ engine is external; its per-cell outputs are an input here.  A
failure anywhere inside the `try` block becomes the single error-message
return; the output pointers are assigned only in the final block
(lines 380-390), after every failure point. -/

/-- What the external cell engine yields for one site, in engine iteration
order: neighbour ids, volume, flat vertex coordinates, face-vertex list. -/
structure CellData : Type where
  neighbors : List Int
  volume : ℚ
  verts : List ℚ
  faceVerts : List Nat

/-- The flat `t_vert` list: four vertex indices per emitted tetrahedron. -/
def tVertOf (fv : List Nat) : List Nat :=
  ((decompFaces fv).map fun q => [q.1, q.2.1, q.2.2.1, q.2.2.2]).flatten

/-- The `c_vol` cumulative array for one cell, built from its face-vertex
list and flat vertex coordinates. -/
def cVolOf (fv : List Nat) (verts : List ℚ) : List ℚ :=
  cumVols ((decompFaces fv).map fun q =>
    tetra_volume (vertexTriple verts q.1) (vertexTriple verts q.2.1)
      (vertexTriple verts q.2.2.1) (vertexTriple verts q.2.2.2))

/-- The sampling blocks of the extraction loop, one cell after another,
threading the random stream position. -/
def sampleAllCells (cells : List CellData) (nsamples : Nat)
    (rands : Nat → ℚ) (ri fuel : Nat) : Option (List (List Point)) :=
  match cells with
  | [] => some []
  | c :: cs =>
    match sampleCell (cVolOf c.faceVerts c.verts) (tVertOf c.faceVerts)
        c.verts nsamples rands ri fuel with
    | none => none
    | some (ps, ri2) => (sampleAllCells cs nsamples rands ri2 fuel).map (ps :: ·)

/-- The catch-block message wrapper (voropp_wrap.cc line 395). -/
def wrapMsg (e : String) : String :=
  "A C++ exception was raised while calling the voro++ wrapper. The full error message is: \"" ++ e ++ "\"."

/-- The output buffers handed to the caller on success.  `vertices` is
`none` when vertices were not requested (the pointer is never assigned) and
`sample_points` is `none` when sampling was not requested (the pointer is
assigned NULL). -/
structure WrapOut : Type where
  max_nn : Nat
  neighbours : List (List Int)
  volumes : List ℚ
  bb_min : List Point
  bb_max : List Point
  max_nv : Nat
  vertices : Option (List (List (Option ℚ)))
  sample_points : Option (List (List Point))

/-- Embedding of `hyperion_voropp_wrap`: walls, cell extraction (with the
per-cell sampling block), symmetrization, packing, output assignment.  The
outer `none` is divergence: the sampling redraw loop never finished (the
call never returns, so neither a message nor buffers are produced). -/
def hyperion_voropp_wrap (wall_str : String) (wall_args : List ℚ)
    (cells : Except String (List CellData))
    (with_vertices with_sampling : Bool) (n_samples : Nat)
    (rands : Nat → ℚ) (fuel : Nat) : Option (Except String WrapOut) :=
  match add_walls wall_str wall_args with
  | .error e => some (.error (wrapMsg e))
  | .ok _ =>
    match cells with
    | .error e => some (.error (wrapMsg e))
    | .ok cs =>
      match (if with_sampling then sampleAllCells cs n_samples rands 0 fuel
             else some []) with
      | none => none
      | some sps =>
        let nlist := symmetrize (cs.map CellData.neighbors)
        some (.ok {
          max_nn := (max_element_size nlist).getD 0
          neighbours := packNeighbours nlist
          volumes := cs.map CellData.volume
          bb_min := cs.map fun c => bboxMin c.verts
          bb_max := cs.map fun c => bboxMax c.verts
          max_nv := if with_vertices then
              (max_element_size (cs.map CellData.verts)).getD 0
            else 0
          vertices := if with_vertices then
              some (packVertices (cs.map CellData.verts))
            else none
          sample_points := if with_sampling then some sps else none })

/-! ### Block-grid sizing (voropp_wrap.cc lines 177-191)

Doubles are modelled as exact reals here because of the cube roots.  The C
cast `(int)` truncates toward zero. -/

/-- The C `cbrt` on the non-negative reals: `x ^ (1/3)`. -/
noncomputable def cbrt (x : ℝ) : ℝ := x ^ ((1 : ℝ) / 3)

/-- The C cast `(int)` of a double: truncation toward zero. -/
noncomputable def cint (x : ℝ) : ℤ := if 0 ≤ x then ⌊x⌋ else ⌈x⌉

/-- `block_edge = cbrt(nsites / particle_block)` with `particle_block = 5`. -/
noncomputable def block_edge (nsites : ℕ) : ℝ := cbrt (nsites / 5)

/-- `vol_edge = cbrt((xmax-xmin) * (ymax-ymin) * (zmax-zmin))`. -/
noncomputable def vol_edge (xmin xmax ymin ymax zmin zmax : ℝ) : ℝ :=
  cbrt ((xmax - xmin) * (ymax - ymin) * (zmax - zmin))

/-- One axis of the block grid: `(int)(extent / vol_edge * block_edge) + 1`. -/
noncomputable def axis_blocks (ext ve be : ℝ) : ℤ := cint (ext / ve * be) + 1

/-- `nx` as computed at line 189. -/
noncomputable def nx_blocks (xmin xmax ymin ymax zmin zmax : ℝ)
    (nsites : ℕ) : ℤ :=
  axis_blocks (xmax - xmin) (vol_edge xmin xmax ymin ymax zmin zmax)
    (block_edge nsites)

/-- `ny` as computed at line 190. -/
noncomputable def ny_blocks (xmin xmax ymin ymax zmin zmax : ℝ)
    (nsites : ℕ) : ℤ :=
  axis_blocks (ymax - ymin) (vol_edge xmin xmax ymin ymax zmin zmax)
    (block_edge nsites)

/-- `nz` as computed at line 191. -/
noncomputable def nz_blocks (xmin xmax ymin ymax zmin zmax : ℝ)
    (nsites : ℕ) : ℤ :=
  axis_blocks (zmax - zmin) (vol_edge xmin xmax ymin ymax zmin zmax)
    (block_edge nsites)

/-! ## Supporting lemmas -/

theorem cumVolsAux_chain (vs : List ℚ) (h : ∀ v ∈ vs, 0 ≤ v) :
    ∀ acc : ℚ, List.Chain' (· ≤ ·) (cumVolsAux acc vs) := by
  induction vs with
  | nil => intro acc; simp [cumVolsAux]
  | cons v rest ih =>
    intro acc
    have hrest : ∀ w ∈ rest, 0 ≤ w := fun w hw => h w (by simp [hw])
    have hch := ih hrest (acc + v)
    refine List.chain'_cons'.2 ⟨?_, hch⟩
    intro y hy
    cases rest with
    | nil => simp [cumVolsAux] at hy
    | cons w rest' =>
      simp [cumVolsAux] at hy
      have hw : 0 ≤ w := hrest w (by simp)
      subst hy
      linarith

theorem cumVolsAux_getLast (vs : List ℚ) (hne : vs ≠ []) :
    ∀ acc : ℚ, (cumVolsAux acc vs).getLast? = some (acc + vs.sum) := by
  induction vs with
  | nil => exact absurd rfl hne
  | cons v rest ih =>
    intro acc
    cases rest with
    | nil => simp [cumVolsAux]
    | cons w rest' =>
      have := ih (by simp) (acc + v)
      simp only [cumVolsAux] at this ⊢
      rw [List.getLast?_cons_cons, this]
      congr 1
      simp
      ring

theorem tetra_volume_nonneg (v0 v1 v2 v3 : Point) :
    0 ≤ tetra_volume v0 v1 v2 v3 := by
  unfold tetra_volume
  positivity

theorem fold_tu_bounds (s t u : ℚ) (hs0 : 0 ≤ s) (hs1 : s ≤ 1) (ht0 : 0 ≤ t)
    (ht1 : t ≤ 1) (hu0 : 0 ≤ u) (hu1 : u < 1) (hst : s + t ≤ 1) :
    0 ≤ (fold_tu s t u).1 ∧ (fold_tu s t u).1 ≤ 1 ∧
    0 ≤ (fold_tu s t u).2.1 ∧ (fold_tu s t u).2.1 ≤ 1 ∧
    0 ≤ (fold_tu s t u).2.2 ∧ (fold_tu s t u).2.2 ≤ 1 ∧
    (fold_tu s t u).1 + (fold_tu s t u).2.1 + (fold_tu s t u).2.2 ≤ 1 := by
  unfold fold_tu
  split_ifs with h1 h2 <;> dsimp only <;>
    refine ⟨by linarith, by linarith, by linarith, by linarith, by linarith,
      by linarith, by linarith⟩

theorem fold_stu_bounds (s t u : ℚ) (hs0 : 0 ≤ s) (hs1 : s < 1) (ht0 : 0 ≤ t)
    (ht1 : t < 1) (hu0 : 0 ≤ u) (hu1 : u < 1) :
    0 ≤ (fold_stu s t u).1 ∧ (fold_stu s t u).1 ≤ 1 ∧
    0 ≤ (fold_stu s t u).2.1 ∧ (fold_stu s t u).2.1 ≤ 1 ∧
    0 ≤ (fold_stu s t u).2.2 ∧ (fold_stu s t u).2.2 ≤ 1 ∧
    (fold_stu s t u).1 + (fold_stu s t u).2.1 + (fold_stu s t u).2.2 ≤ 1 := by
  unfold fold_stu
  split_ifs with h1
  · exact fold_tu_bounds _ _ _ (by linarith) (by linarith) (by linarith)
      (by linarith) hu0 hu1 (by linarith)
  · exact fold_tu_bounds _ _ _ hs0 (by linarith) ht0 (by linarith) hu0 hu1
      (by linarith)

/-! ## Claim theorems -/

/-- Claim C4: each emitted tetrahedron volume equals
`|det [v1-v0; v2-v0; v3-v0]| / 6` and is therefore non-negative, and the
cumulative-volume array built in emission order is non-decreasing with its
last element equal to the sum of all emitted tetrahedron volumes. -/
theorem C4_cumulative_volume_invariants :
    (∀ v0 v1 v2 v3 : Point,
      tetra_volume v0 v1 v2 v3 =
        |Matrix.det !![v1.1 - v0.1, v1.2.1 - v0.2.1, v1.2.2 - v0.2.2;
                       v2.1 - v0.1, v2.2.1 - v0.2.1, v2.2.2 - v0.2.2;
                       v3.1 - v0.1, v3.2.1 - v0.2.1, v3.2.2 - v0.2.2]| / 6 ∧
      0 ≤ tetra_volume v0 v1 v2 v3) ∧
    ∀ ts : List (Point × Point × Point × Point),
      List.Chain' (· ≤ ·) (cumVols (tetraVolsOf ts)) ∧
      (cumVols (tetraVolsOf ts)).getLast?.getD 0 = (tetraVolsOf ts).sum := by
  constructor
  · intro v0 v1 v2 v3
    refine ⟨?_, tetra_volume_nonneg v0 v1 v2 v3⟩
    rw [Matrix.det_fin_three]
    unfold tetra_volume
    simp only [Matrix.cons_val', Matrix.cons_val_zero, Matrix.empty_val',
      Matrix.cons_val_fin_one, Matrix.cons_val_one, Matrix.head_cons,
      Matrix.head_fin_const, Matrix.cons_val_two, Matrix.tail_cons,
      Matrix.of_apply]
    congr 1
    congr 1
    ring
  · intro ts
    have hnn : ∀ v ∈ tetraVolsOf ts, 0 ≤ v := by
      intro v hv
      simp only [tetraVolsOf, List.mem_map] at hv
      obtain ⟨q, -, rfl⟩ := hv
      exact tetra_volume_nonneg _ _ _ _
    refine ⟨cumVolsAux_chain _ hnn 0, ?_⟩
    cases h : tetraVolsOf ts with
    | nil => simp [cumVols, h, cumVolsAux]
    | cons v rest =>
      rw [cumVols, cumVolsAux_getLast _ (by simp [h]) 0]
      simp

/-- Claim C5: for draws `s,t,u` in `[0,1)`, the folded-cube transformation
yields barycentric coordinates `(1-s-t-u, s, t, u)` each in `[0,1]` summing
to 1, so the sampled point is the corresponding convex combination of the
four tetrahedron vertices and lies in their convex hull. -/
theorem C5_folded_cube_barycentric (s t u : ℚ) (hs0 : 0 ≤ s) (hs1 : s < 1)
    (ht0 : 0 ≤ t) (ht1 : t < 1) (hu0 : 0 ≤ u) (hu1 : u < 1)
    (p0 p1 p2 p3 : Point) :
    (0 ≤ 1 - (fold_stu s t u).1 - (fold_stu s t u).2.1 - (fold_stu s t u).2.2 ∧
     1 - (fold_stu s t u).1 - (fold_stu s t u).2.1 - (fold_stu s t u).2.2 ≤ 1) ∧
    (0 ≤ (fold_stu s t u).1 ∧ (fold_stu s t u).1 ≤ 1) ∧
    (0 ≤ (fold_stu s t u).2.1 ∧ (fold_stu s t u).2.1 ≤ 1) ∧
    (0 ≤ (fold_stu s t u).2.2 ∧ (fold_stu s t u).2.2 ≤ 1) ∧
    (1 - (fold_stu s t u).1 - (fold_stu s t u).2.1 - (fold_stu s t u).2.2) +
      (fold_stu s t u).1 + (fold_stu s t u).2.1 + (fold_stu s t u).2.2 = 1 ∧
    sample_point_in_tetra s t u p0 p1 p2 p3 =
      (1 - (fold_stu s t u).1 - (fold_stu s t u).2.1 - (fold_stu s t u).2.2) • p0 +
      (fold_stu s t u).1 • p1 + (fold_stu s t u).2.1 • p2 +
      (fold_stu s t u).2.2 • p3 ∧
    sample_point_in_tetra s t u p0 p1 p2 p3 ∈
      convexHull ℚ ({p0, p1, p2, p3} : Set Point) := by
  obtain ⟨b1, b2, b3, b4, b5, b6, b7⟩ :=
    fold_stu_bounds s t u hs0 hs1 ht0 ht1 hu0 hu1
  have hcomb : sample_point_in_tetra s t u p0 p1 p2 p3 =
      (1 - (fold_stu s t u).1 - (fold_stu s t u).2.1 - (fold_stu s t u).2.2) • p0 +
      (fold_stu s t u).1 • p1 + (fold_stu s t u).2.1 • p2 +
      (fold_stu s t u).2.2 • p3 := by
    unfold sample_point_in_tetra
    refine Prod.ext ?_ (Prod.ext ?_ ?_) <;>
      simp [Prod.fst_add, Prod.snd_add, smul_eq_mul] <;> ring
  refine ⟨⟨by linarith, by linarith⟩, ⟨b1, b2⟩, ⟨b3, b4⟩, ⟨b5, b6⟩,
    by ring, hcomb, ?_⟩
  rw [hcomb]
  have hsum : ∑ i : Fin 4,
      (![1 - (fold_stu s t u).1 - (fold_stu s t u).2.1 - (fold_stu s t u).2.2,
         (fold_stu s t u).1, (fold_stu s t u).2.1, (fold_stu s t u).2.2] i) •
      (![p0, p1, p2, p3] i) =
      (1 - (fold_stu s t u).1 - (fold_stu s t u).2.1 - (fold_stu s t u).2.2) • p0 +
      (fold_stu s t u).1 • p1 + (fold_stu s t u).2.1 • p2 +
      (fold_stu s t u).2.2 • p3 := by
    rw [Fin.sum_univ_four]
    simp
  rw [← hsum]
  refine (convex_convexHull ℚ _).sum_mem ?_ ?_ ?_
  · intro i _
    fin_cases i <;> simp <;> linarith
  · rw [Fin.sum_univ_four]
    simp
    ring
  · intro i _
    refine subset_convexHull ℚ _ ?_
    fin_cases i <;> simp

/-- Claim C6: `add_walls` raises an invalid-configuration error exactly when
the tag is sphere with parameter count not 4 or radius (params[3]) not
positive, or the tag is cylinder with parameter count not 7 or radius
(params[6]) not positive; any other tag succeeds adding no wall. -/
theorem C6_wall_validation (tag : String) (args : List ℚ) :
    (exceptIsErr (add_walls tag args) = true ↔
      (tag = "sphere" ∧ (args.length ≠ 4 ∨ args.getD 3 0 ≤ 0)) ∨
      (tag = "cylinder" ∧ (args.length ≠ 7 ∨ args.getD 6 0 ≤ 0))) ∧
    (tag ≠ "sphere" → tag ≠ "cylinder" → add_walls tag args = .ok none) := by
  have hsc : ("sphere" : String) ≠ "cylinder" := by decide
  constructor
  · by_cases hs : tag = "sphere"
    · subst hs
      unfold add_walls add_walls_sphere add_walls_cylinder
      split_ifs <;> simp_all [exceptIsErr]
    · by_cases hc : tag = "cylinder"
      · subst hc
        unfold add_walls add_walls_sphere add_walls_cylinder
        split_ifs <;> simp_all [exceptIsErr]
      · unfold add_walls add_walls_sphere add_walls_cylinder
        simp [hs, hc, exceptIsErr]
  · intro hns hnc
    unfold add_walls add_walls_sphere add_walls_cylinder
    simp [hns, hnc]

/-- Witness for C5 at `s = t = u = 1/2` and the standard simplex vertices. -/
theorem C5_folded_cube_barycentric_witness :
    0 ≤ 1 - (fold_stu (1/2) (1/2) (1/2)).1 - (fold_stu (1/2) (1/2) (1/2)).2.1 -
      (fold_stu (1/2) (1/2) (1/2)).2.2 :=
  (C5_folded_cube_barycentric (1/2) (1/2) (1/2) (by norm_num) (by norm_num)
    (by norm_num) (by norm_num) (by norm_num) (by norm_num)
    (0, 0, 0) (1, 0, 0) (0, 1, 0) (0, 0, 1)).1.1

/-- Witness for C6 at the unrecognized tag `plane`: no wall, no error. -/
theorem C6_wall_validation_witness :
    add_walls "plane" ([] : List ℚ) = .ok none :=
  (C6_wall_validation "plane" []).2 (by decide) (by decide)

/-- Claim C3: on every well-formed face-vertex list, the decomposition loop
skips exactly the faces containing vertex index 0 and, for each retained
face with `k` vertices, emits the `k - 2` fan tetrahedra
`(0, face[0], face[i], face[i+1])` for `i = 1 .. k-2`, in face-walk order. -/
theorem C3_tetra_decomposition (faces : List (List Nat)) :
    decompFaces (encodeFaces faces) = tetraFanSpec faces := by
  induction faces with
  | nil => simp [encodeFaces, tetraFanSpec, decompFaces]
  | cons f fs ih =>
    have henc : encodeFaces (f :: fs) = f.length :: (f ++ encodeFaces fs) := by
      simp [encodeFaces]
    rw [henc, decompFaces, List.take_left, List.drop_left, ih]
    have hspec : tetraFanSpec (f :: fs) =
        (if 0 ∈ f then []
         else (List.range (f.length - 2)).map fun i =>
           (0, f.getD 0 0, f.getD (i + 1) 0, f.getD (i + 2) 0)) ++
        tetraFanSpec fs := by
      simp [tetraFanSpec]
    rw [hspec]
    congr 1
    by_cases h0 : 0 ∈ f
    · simp [h0]
    · simp only [h0, if_neg, if_false]
      refine List.map_congr_left ?_
      intro i hi
      simp only [List.mem_range] at hi
      have h1 : i + 1 < f.length := by omega
      have h2 : i + 2 < f.length := by omega
      have h3 : 0 < f.length := by omega
      rw [List.getD_append _ _ _ _ h3, List.getD_append _ _ _ _ h1,
        List.getD_append _ _ _ _ h2]

theorem chain_le_getLast :
    ∀ (l : List ℚ), List.Chain' (· ≤ ·) l →
      ∀ x ∈ l, ∀ y, l.getLast? = some y → x ≤ y := by
  intro l
  induction l with
  | nil => intro _ x hx; simp at hx
  | cons a l ih =>
    intro hc x hx y hy
    cases l with
    | nil =>
      simp at hx hy
      subst hx; subst hy; rfl
    | cons b l2 =>
      rw [List.chain'_cons] at hc
      rw [List.getLast?_cons_cons] at hy
      rcases List.mem_cons.1 hx with rfl | hx2
      · have hb : b ≤ y := ih hc.2 b (by simp) y hy
        linarith [hc.1]
      · exact ih hc.2 x hx2 y hy

theorem upper_bound_idx_eq_length (l : List ℚ) (x : ℚ)
    (h : ∀ y ∈ l, y ≤ x) : upper_bound_idx l x = l.length := by
  unfold upper_bound_idx
  rw [List.takeWhile_eq_self_iff.2 (by intro y hy; simpa using h y hy)]

theorem sampleCellLoop_stuck (cvol : List ℚ) (cfactor : ℚ) (tvert : List Nat)
    (verts : List ℚ) (nsamples : Nat) (rands : Nat → ℚ)
    (hub : ∀ k : Nat, upper_bound_idx cvol (rands k * cfactor) = cvol.length)
    (hns : 1 ≤ nsamples) :
    ∀ fuel ri : Nat,
      sampleCellLoop cvol cfactor tvert verts nsamples rands ri 0 [] fuel =
        none := by
  intro fuel
  induction fuel with
  | zero => intro ri; rfl
  | succ fuel ih =>
    intro ri
    show sampleCellLoop cvol cfactor tvert verts nsamples rands ri 0 []
      (fuel + 1) = none
    simp only [sampleCellLoop]
    rw [if_pos (by omega : 0 < nsamples), if_pos (hub ri)]
    exact ih (ri + 1)

/-- Claim C2 (as settled): when the decomposed cumulative volume is
degenerate (non-positive last value), the redraw loop never selects a
tetrahedron: for every amount of fuel the sampling block fails to
terminate, so no fatal error is surfaced and no sample is produced. -/
theorem C2_degenerate_sampling_never_terminates (cvol : List ℚ)
    (tvert : List Nat) (verts : List ℚ) (nsamples : Nat) (rands : Nat → ℚ)
    (ri fuel : Nat) (hne : cvol ≠ []) (hchain : List.Chain' (· ≤ ·) cvol)
    (hlast : cvol.getLast?.getD 0 ≤ 0)
    (hr1 : ∀ k, rands k ≤ RAND_MAX) (hns : 1 ≤ nsamples) :
    sampleCell cvol tvert verts nsamples rands ri fuel = none := by
  obtain ⟨y, hy⟩ : ∃ y, cvol.getLast? = some y := by
    cases h : cvol.getLast? with
    | none => exact absurd (List.getLast?_eq_none_iff.1 h) hne
    | some y => exact ⟨y, rfl⟩
  have hy0 : y ≤ 0 := by rw [hy] at hlast; simpa using hlast
  have hRM : (0 : ℚ) < RAND_MAX + 1 := by norm_num [RAND_MAX]
  have hub : ∀ k : Nat,
      upper_bound_idx cvol (rands k * (cvol.getLast?.getD 0 / (RAND_MAX + 1)))
        = cvol.length := by
    intro k
    refine upper_bound_idx_eq_length _ _ ?_
    intro x hx
    have hxy : x ≤ y := chain_le_getLast cvol hchain x hx y hy
    have hkey : y * (RAND_MAX + 1 - rands k) ≤ 0 :=
      mul_nonpos_of_nonpos_of_nonneg hy0 (by linarith [hr1 k])
    have hyr : y ≤ rands k * y / (RAND_MAX + 1) := by
      rw [le_div_iff₀ hRM]
      nlinarith [hkey]
    rw [hy]
    calc x ≤ y := hxy
      _ ≤ rands k * y / (RAND_MAX + 1) := hyr
      _ = rands k * (Option.getD (some y) 0 / (RAND_MAX + 1)) := by
          rw [mul_div_assoc]; rfl
  exact sampleCellLoop_stuck _ _ _ _ _ _ hub hns fuel ri

/-- Witness for C2: a single degenerate (zero-volume) tetrahedron,
`c_vol = [0]`, one requested sample. -/
theorem C2_degenerate_sampling_witness :
    sampleCell [0] [] [] 1 (fun _ => 0) 0 3 = none :=
  C2_degenerate_sampling_never_terminates [0] [] [] 1 (fun _ => 0) 0 3
    (by simp) (by simp) (by simp)
    (fun k => by norm_num [RAND_MAX]) (le_refl 1)

/-- Claim C10: the `max_element` reductions dereference the result
iterator, which is defined exactly when there is at least one site: for a
non-empty list of per-site lists the reduction yields a value, and for the
empty list it is the invalid past-the-end dereference (`none`). -/
theorem C10_max_reduction_needs_a_site :
    (∀ ls : List (List Int), ls ≠ [] → (max_element_size ls).isSome = true) ∧
    max_element_size ([] : List (List Int)) = none := by
  constructor
  · intro ls h
    cases ls with
    | nil => exact absurd rfl h
    | cons a l => rfl
  · rfl

/-- Witness for C10 at a single site with an empty neighbour list. -/
theorem C10_max_reduction_needs_a_site_witness :
    (max_element_size [([] : List Int)]).isSome = true :=
  C10_max_reduction_needs_a_site.1 [[]] (List.cons_ne_nil _ _)

theorem two_div_cbrt_two : (2 : ℝ) / (2 : ℝ) ^ ((1 : ℝ) / 3) =
    (2 : ℝ) ^ ((2 : ℝ) / 3) := by
  rw [show ((2 : ℝ) / 3) = 1 - (1 : ℝ) / 3 by norm_num,
    Real.rpow_sub (by norm_num), Real.rpow_one]

theorem cbrt_two_pow_two_thirds_bounds :
    (1 : ℝ) < (2 : ℝ) ^ ((2 : ℝ) / 3) ∧ (2 : ℝ) ^ ((2 : ℝ) / 3) < 2 := by
  constructor
  · rw [show (1 : ℝ) = (2 : ℝ) ^ (0 : ℝ) by rw [Real.rpow_zero]]
    apply Real.rpow_lt_rpow_of_exponent_lt <;> norm_num
  · nth_rewrite 3 [show (2 : ℝ) = (2 : ℝ) ^ (1 : ℝ) by rw [Real.rpow_one]]
    apply Real.rpow_lt_rpow_of_exponent_lt <;> norm_num

theorem sizer_arg_2x1x1 :
    (2 - 0 : ℝ) / vol_edge 0 2 0 1 0 1 * block_edge 5 =
      (2 : ℝ) ^ ((2 : ℝ) / 3) := by
  unfold vol_edge block_edge cbrt
  rw [show ((5 : ℕ) : ℝ) / 5 = 1 by norm_num, Real.one_rpow, mul_one]
  rw [show ((2 : ℝ) - 0) * ((1 : ℝ) - 0) * ((1 : ℝ) - 0) = 2 by norm_num]
  rw [show (2 - 0 : ℝ) = 2 by norm_num]
  exact two_div_cbrt_two

/-- Counterexample to claim C7 as stated: for the domain
`[0,2] x [0,1] x [0,1]` with 5 sites the code computes
`nx = (int)(2^(2/3)) + 1 = 2`, while round-up would give
`ceil(2^(2/3)) + 1 = 3`. -/
theorem C7_not_round_up :
    nx_blocks 0 2 0 1 0 1 5 ≠
      ⌈(2 - 0 : ℝ) / vol_edge 0 2 0 1 0 1 * block_edge 5⌉ + 1 := by
  obtain ⟨h1, h2⟩ := cbrt_two_pow_two_thirds_bounds
  unfold nx_blocks axis_blocks cint
  rw [sizer_arg_2x1x1, if_pos (by linarith)]
  have hf : ⌊(2 : ℝ) ^ ((2 : ℝ) / 3)⌋ = 1 := by
    rw [Int.floor_eq_iff]
    constructor
    · simpa using le_of_lt h1
    · push_cast
      linarith
  have hc : ⌈(2 : ℝ) ^ ((2 : ℝ) / 3)⌉ = 2 := by
    rw [Int.ceil_eq_iff]
    constructor
    · push_cast
      linarith
    · push_cast
      linarith
  rw [hf, hc]
  decide

/-- Claim C7 as amended: each per-axis block count equals the truncation
(floor, since the argument is non-negative) of
`(axis extent / cbrt(domain volume)) * cbrt(n/5)`, plus 1, and all three
counts are at least 1. -/
theorem C7_amended_sizer (xmin xmax ymin ymax zmin zmax : ℝ) (n : ℕ)
    (hx : xmin < xmax) (hy : ymin < ymax) (hz : zmin < zmax) (hn : 1 ≤ n) :
    (nx_blocks xmin xmax ymin ymax zmin zmax n =
        ⌊(xmax - xmin) / vol_edge xmin xmax ymin ymax zmin zmax *
          block_edge n⌋ + 1 ∧
      ny_blocks xmin xmax ymin ymax zmin zmax n =
        ⌊(ymax - ymin) / vol_edge xmin xmax ymin ymax zmin zmax *
          block_edge n⌋ + 1 ∧
      nz_blocks xmin xmax ymin ymax zmin zmax n =
        ⌊(zmax - zmin) / vol_edge xmin xmax ymin ymax zmin zmax *
          block_edge n⌋ + 1) ∧
    1 ≤ nx_blocks xmin xmax ymin ymax zmin zmax n ∧
    1 ≤ ny_blocks xmin xmax ymin ymax zmin zmax n ∧
    1 ≤ nz_blocks xmin xmax ymin ymax zmin zmax n := by
  have hve : 0 < vol_edge xmin xmax ymin ymax zmin zmax := by
    unfold vol_edge cbrt
    apply Real.rpow_pos_of_pos
    have h1 : 0 < xmax - xmin := by linarith
    have h2 : 0 < ymax - ymin := by linarith
    have h3 : 0 < zmax - zmin := by linarith
    positivity
  have hbe : 0 < block_edge n := by
    unfold block_edge cbrt
    apply Real.rpow_pos_of_pos
    have : (0 : ℝ) < n := by exact_mod_cast Nat.lt_of_lt_of_le Nat.zero_lt_one hn
    positivity
  have hax : ∀ ext : ℝ, 0 < ext →
      axis_blocks ext (vol_edge xmin xmax ymin ymax zmin zmax)
        (block_edge n) =
        ⌊ext / vol_edge xmin xmax ymin ymax zmin zmax * block_edge n⌋ + 1 ∧
      1 ≤ axis_blocks ext (vol_edge xmin xmax ymin ymax zmin zmax)
        (block_edge n) := by
    intro ext hext
    have harg : 0 ≤ ext / vol_edge xmin xmax ymin ymax zmin zmax *
        block_edge n := le_of_lt (mul_pos (div_pos hext hve) hbe)
    unfold axis_blocks cint
    rw [if_pos harg]
    exact ⟨rfl, by have := Int.floor_nonneg.2 harg; omega⟩
  obtain ⟨ex1, ex2⟩ := hax (xmax - xmin) (by linarith)
  obtain ⟨ey1, ey2⟩ := hax (ymax - ymin) (by linarith)
  obtain ⟨ez1, ez2⟩ := hax (zmax - zmin) (by linarith)
  exact ⟨⟨ex1, ey1, ez1⟩, ex2, ey2, ez2⟩

/-- Witness for the amended C7 at the unit cube with 5 sites. -/
theorem C7_amended_sizer_witness :
    (nx_blocks 0 1 0 1 0 1 5 =
        ⌊(1 - 0 : ℝ) / vol_edge 0 1 0 1 0 1 * block_edge 5⌋ + 1 ∧
      ny_blocks 0 1 0 1 0 1 5 =
        ⌊(1 - 0 : ℝ) / vol_edge 0 1 0 1 0 1 * block_edge 5⌋ + 1 ∧
      nz_blocks 0 1 0 1 0 1 5 =
        ⌊(1 - 0 : ℝ) / vol_edge 0 1 0 1 0 1 * block_edge 5⌋ + 1) ∧
    1 ≤ nx_blocks 0 1 0 1 0 1 5 ∧ 1 ≤ ny_blocks 0 1 0 1 0 1 5 ∧
    1 ≤ nz_blocks 0 1 0 1 0 1 5 :=
  C7_amended_sizer 0 1 0 1 0 1 5 (by norm_num) (by norm_num) (by norm_num)
    (by norm_num)

/-! ## Symmetrizer lemmas -/

theorem nthList_set_self (ls : List (List Int)) (i : Nat) (x : List Int)
    (h : i < ls.length) : nthList (ls.set i x) i = x := by
  rw [nthList, List.getD_eq_getElem?_getD, List.getElem?_set_self h]
  rfl

theorem nthList_set_ne (ls : List (List Int)) (i j : Nat) (x : List Int)
    (h : i ≠ j) : nthList (ls.set i x) j = nthList ls j := by
  rw [nthList, nthList, List.getD_eq_getElem?_getD,
    List.getD_eq_getElem?_getD, List.getElem?_set_ne h]

theorem grows_refl (l : List Int) : grows l l := ⟨[], by simp⟩

theorem grows_trans {a b c : List Int} (h1 : grows a b) (h2 : grows b c) :
    grows a c := by
  obtain ⟨t1, rfl⟩ := h1
  obtain ⟨t2, rfl⟩ := h2
  exact ⟨t1 ++ t2, by simp⟩

theorem grows_mem {l l2 : List Int} {v : Int} (h : grows l l2) (hv : v ∈ l) :
    v ∈ l2 := by
  obtain ⟨t, rfl⟩ := h
  exact List.mem_append_left _ hv

theorem symAppend_length (ls : List (List Int)) (idx : Nat) (v : Int) :
    (symAppend ls idx v).length = ls.length := by
  unfold symAppend
  split_ifs <;> simp [List.length_set]

theorem symAppend_grows (ls : List (List Int)) (idx : Nat) (v : Int)
    (a : Nat) : grows (nthList ls a) (nthList (symAppend ls idx v) a) := by
  unfold symAppend
  split_ifs with h1 h2
  · exact grows_refl _
  · by_cases ha : v.toNat = a
    · subst ha
      by_cases hlt : v.toNat < ls.length
      · rw [nthList_set_self _ _ _ hlt]
        exact ⟨[(idx : Int)], rfl⟩
      · rw [List.set_eq_of_length_le (by omega)]
        exact grows_refl _
    · rw [nthList_set_ne _ _ _ _ ha]
      exact grows_refl _
  · exact grows_refl _

theorem symAppend_mem {ls : List (List Int)} {idx : Nat} {w : Int} {a : Nat}
    {v : Int} (h : v ∈ nthList (symAppend ls idx w) a) :
    v ∈ nthList ls a ∨ (v = (idx : Int) ∧ 0 ≤ w ∧ a = w.toNat) := by
  unfold symAppend at h
  split_ifs at h with h1 h2
  · exact Or.inl h
  · by_cases ha : w.toNat = a
    · subst ha
      by_cases hlt : w.toNat < ls.length
      · rw [nthList_set_self _ _ _ hlt] at h
        rcases List.mem_append.1 h with h3 | h3
        · exact Or.inl h3
        · simp at h3
          exact Or.inr ⟨h3, h1, rfl⟩
      · rw [List.set_eq_of_length_le (by omega)] at h
        exact Or.inl h
    · rw [nthList_set_ne _ _ _ _ ha] at h
      exact Or.inl h
  · exact Or.inl h

theorem symAppend_nth_self {ls : List (List Int)} {idx : Nat} {v : Int}
    (hv : v ∈ nthList ls idx) :
    nthList (symAppend ls idx v) idx = nthList ls idx := by
  unfold symAppend
  split_ifs with h1 h2
  · rfl
  · by_cases ha : v.toNat = idx
    · exfalso
      apply h2
      have hvi : ((idx : Nat) : Int) = v := by
        rw [← ha, Int.toNat_of_nonneg h1]
      rw [ha, hvi]
      exact hv
    · rw [nthList_set_ne _ _ _ _ ha]
  · rfl

theorem symAppend_WF {n : Nat} {ls : List (List Int)} (hwf : WFLists n ls)
    {idx : Nat} (hidx : idx < n) (w : Int) :
    WFLists n (symAppend ls idx w) := by
  intro a v hv h0
  rcases symAppend_mem hv with h | ⟨rfl, -, -⟩
  · exact hwf a v h h0
  · simpa using hidx

theorem symAppend_establishes {ls : List (List Int)} {idx : Nat} {v : Int}
    (h0 : 0 ≤ v) (hlt : v.toNat < ls.length) :
    (idx : Int) ∈ nthList (symAppend ls idx v) v.toNat := by
  unfold symAppend
  split_ifs with h1
  · exact h1
  · rw [nthList_set_self _ _ _ hlt]
    simp

theorem symInnerF_nth_idx (idx : Nat) :
    ∀ (fuel j : Nat) (ls : List (List Int)),
      nthList (symInnerF idx fuel j ls) idx = nthList ls idx := by
  intro fuel
  induction fuel with
  | zero => intro j ls; rfl
  | succ fuel ih =>
    intro j ls
    by_cases h : j < (nthList ls idx).length
    · simp only [symInnerF, dif_pos h]
      rw [ih, symAppend_nth_self (List.get_mem _ _ _)]
    · simp only [symInnerF, dif_neg h]

theorem symInnerF_length (idx : Nat) :
    ∀ (fuel j : Nat) (ls : List (List Int)),
      (symInnerF idx fuel j ls).length = ls.length := by
  intro fuel
  induction fuel with
  | zero => intro j ls; rfl
  | succ fuel ih =>
    intro j ls
    by_cases h : j < (nthList ls idx).length
    · simp only [symInnerF, dif_pos h]
      rw [ih, symAppend_length]
    · simp only [symInnerF, dif_neg h]

theorem symInnerF_grows (idx : Nat) :
    ∀ (fuel j : Nat) (ls : List (List Int)) (a : Nat),
      grows (nthList ls a) (nthList (symInnerF idx fuel j ls) a) := by
  intro fuel
  induction fuel with
  | zero => intro j ls a; exact grows_refl _
  | succ fuel ih =>
    intro j ls a
    by_cases h : j < (nthList ls idx).length
    · simp only [symInnerF, dif_pos h]
      exact grows_trans (symAppend_grows _ _ _ _) (ih _ _ _)
    · simp only [symInnerF, dif_neg h]
      exact grows_refl _

theorem symInnerF_mem (idx : Nat) :
    ∀ (fuel j : Nat) (ls : List (List Int)) (a : Nat) (v : Int),
      v ∈ nthList (symInnerF idx fuel j ls) a →
      v ∈ nthList ls a ∨ (v = (idx : Int) ∧ (a : Int) ∈ nthList ls idx) := by
  intro fuel
  induction fuel with
  | zero => intro j ls a v h; exact Or.inl h
  | succ fuel ih =>
    intro j ls a v hv
    by_cases h : j < (nthList ls idx).length
    · simp only [symInnerF, dif_pos h] at hv
      rcases ih _ _ _ _ hv with h1 | ⟨rfl, h2⟩
      · rcases symAppend_mem h1 with h3 | ⟨rfl, h4, rfl⟩
        · exact Or.inl h3
        · refine Or.inr ⟨rfl, ?_⟩
          rw [Int.toNat_of_nonneg h4]
          exact List.get_mem _ _ _
      · rw [symAppend_nth_self (List.get_mem _ _ _)] at h2
        exact Or.inr ⟨rfl, h2⟩
    · simp only [symInnerF, dif_neg h] at hv
      exact Or.inl hv

theorem symInnerF_establishes (idx : Nat) :
    ∀ (fuel j : Nat) (ls : List (List Int)),
      (nthList ls idx).length ≤ j + fuel →
      WFLists ls.length ls → idx < ls.length →
      (∀ (k : Nat) (w : Int), k < j → (nthList ls idx)[k]? = some w →
        0 ≤ w → (idx : Int) ∈ nthList ls w.toNat) →
      ∀ v ∈ nthList (symInnerF idx fuel j ls) idx, 0 ≤ v →
        (idx : Int) ∈ nthList (symInnerF idx fuel j ls) v.toNat := by
  intro fuel
  induction fuel with
  | zero =>
    intro j ls hfuel hwf hix hprev v hv h0
    simp only [symInnerF] at hv ⊢
    obtain ⟨k, hk⟩ := List.mem_iff_getElem?.1 hv
    have hklt : k < (nthList ls idx).length := by
      by_contra hge
      rw [List.getElem?_eq_none (by omega)] at hk
      exact Option.noConfusion hk
    exact hprev k v (by omega) hk h0
  | succ fuel ih =>
    intro j ls hfuel hwf hix hprev v hv h0
    by_cases h : j < (nthList ls idx).length
    · simp only [symInnerF, dif_pos h] at hv ⊢
      set w0 := (nthList ls idx).get ⟨j, h⟩ with hw0
      have hw0mem : w0 ∈ nthList ls idx := List.get_mem _ _ _
      have hnx : nthList (symAppend ls idx w0) idx = nthList ls idx :=
        symAppend_nth_self hw0mem
      refine ih (j + 1) (symAppend ls idx w0) ?_ ?_ ?_ ?_ v hv h0
      · rw [hnx]; omega
      · rw [symAppend_length]
        exact symAppend_WF hwf hix w0
      · rw [symAppend_length]
        exact hix
      · intro k w hk hks hw0le
        rw [hnx] at hks
        by_cases hkj : k < j
        · exact grows_mem (symAppend_grows _ _ _ _)
            (hprev k w hkj hks hw0le)
        · have hkeq : k = j := by omega
          subst hkeq
          have : w = w0 := by
            rw [List.getElem?_eq_getElem h] at hks
            simpa [hw0, List.get_eq_getElem] using hks.symm
          subst this
          exact symAppend_establishes hw0le (hwf idx w0 hw0mem hw0le)
    · simp only [symInnerF, dif_neg h] at hv ⊢
      obtain ⟨k, hk⟩ := List.mem_iff_getElem?.1 hv
      have hklt : k < (nthList ls idx).length := by
        by_contra hge
        rw [List.getElem?_eq_none (by omega)] at hk
        exact Option.noConfusion hk
      exact hprev k v (by omega) hk h0

theorem symInner_nth_idx (idx : Nat) (ls : List (List Int)) :
    nthList (symInner idx ls) idx = nthList ls idx :=
  symInnerF_nth_idx idx _ 0 ls

theorem symInner_length (idx : Nat) (ls : List (List Int)) :
    (symInner idx ls).length = ls.length :=
  symInnerF_length idx _ 0 ls

theorem symInner_grows (idx : Nat) (ls : List (List Int)) (a : Nat) :
    grows (nthList ls a) (nthList (symInner idx ls) a) :=
  symInnerF_grows idx _ 0 ls a

theorem symInner_mem {idx : Nat} {ls : List (List Int)} {a : Nat} {v : Int}
    (h : v ∈ nthList (symInner idx ls) a) :
    v ∈ nthList ls a ∨ (v = (idx : Int) ∧ (a : Int) ∈ nthList ls idx) :=
  symInnerF_mem idx _ 0 ls a v h

theorem symInner_WF {n : Nat} {ls : List (List Int)} (hwf : WFLists n ls)
    {idx : Nat} (hidx : idx < n) :
    WFLists n (symInner idx ls) := by
  intro a v hv h0
  rcases symInner_mem hv with h | ⟨rfl, -⟩
  · exact hwf a v h h0
  · simpa using hidx

theorem symInner_establishes {idx : Nat} {ls : List (List Int)}
    (hwf : WFLists ls.length ls) (hix : idx < ls.length) :
    ∀ v ∈ nthList (symInner idx ls) idx, 0 ≤ v →
      (idx : Int) ∈ nthList (symInner idx ls) v.toNat := by
  refine symInnerF_establishes idx _ 0 ls (by omega) hwf hix ?_
  intro k w hk
  exact absurd hk (by omega)

theorem symInner_preserves {idx : Nat} {ls : List (List Int)} (a : Nat)
    (hP : ∀ v ∈ nthList ls a, 0 ≤ v → (a : Int) ∈ nthList ls v.toNat) :
    ∀ v ∈ nthList (symInner idx ls) a, 0 ≤ v →
      (a : Int) ∈ nthList (symInner idx ls) v.toNat := by
  intro v hv h0
  rcases symInner_mem hv with h | ⟨rfl, h2⟩
  · exact grows_mem (symInner_grows _ _ _) (hP v h h0)
  · rw [Int.toNat_natCast, symInner_nth_idx]
    exact h2

theorem symFold (n : Nat) :
    ∀ (idxs : List Nat) (ls : List (List Int)),
      ls.length = n → WFLists n ls → (∀ i ∈ idxs, i < n) →
      (idxs.foldl (fun acc idx => symInner idx acc) ls).length = n ∧
      WFLists n (idxs.foldl (fun acc idx => symInner idx acc) ls) ∧
      (∀ (a : Nat) (v : Int),
        v ∈ nthList (idxs.foldl (fun acc idx => symInner idx acc) ls) a →
        v ∈ nthList ls a ∨ 0 ≤ v) ∧
      (∀ a : Nat,
        (∀ v ∈ nthList ls a, 0 ≤ v → (a : Int) ∈ nthList ls v.toNat) →
        ∀ v ∈ nthList (idxs.foldl (fun acc idx => symInner idx acc) ls) a,
          0 ≤ v → (a : Int) ∈
            nthList (idxs.foldl (fun acc idx => symInner idx acc) ls)
              v.toNat) ∧
      (∀ i ∈ idxs,
        ∀ v ∈ nthList (idxs.foldl (fun acc idx => symInner idx acc) ls) i,
          0 ≤ v → (i : Int) ∈
            nthList (idxs.foldl (fun acc idx => symInner idx acc) ls)
              v.toNat) := by
  intro idxs
  induction idxs with
  | nil =>
    intro ls hlen hwf hb
    refine ⟨hlen, hwf, fun a v hv => Or.inl hv, fun a hP => hP, ?_⟩
    intro i hi
    simp at hi
  | cons i idxs ih =>
    intro ls hlen hwf hb
    have hin : i < n := hb i (by simp)
    have hlen1 : (symInner i ls).length = n := by
      rw [symInner_length, hlen]
    have hwf1 : WFLists n (symInner i ls) := symInner_WF hwf hin
    have hb1 : ∀ k ∈ idxs, k < n := fun k hk => hb k (by simp [hk])
    obtain ⟨c1, c2, c3, c4, c5⟩ := ih (symInner i ls) hlen1 hwf1 hb1
    have hfold : (i :: idxs).foldl (fun acc idx => symInner idx acc) ls =
        idxs.foldl (fun acc idx => symInner idx acc) (symInner i ls) := rfl
    rw [hfold]
    refine ⟨c1, c2, ?_, ?_, ?_⟩
    · intro a v hv
      rcases c3 a v hv with h | h
      · rcases symInner_mem h with h2 | ⟨rfl, -⟩
        · exact Or.inl h2
        · right
          positivity
      · exact Or.inr h
    · intro a hP
      exact c4 a (symInner_preserves a hP)
    · intro k hk
      rcases List.mem_cons.1 hk with rfl | hk2
      · have hPi : ∀ v ∈ nthList (symInner k ls) k, 0 ≤ v →
            (k : Int) ∈ nthList (symInner k ls) v.toNat := by
          apply symInner_establishes
          · rw [hlen]; exact hwf
          · rw [hlen]; exact hin
        exact c4 k hPi
      · exact c5 k hk2

/-- Claim C1: after the single symmetrization pass, the neighbour relation
is symmetric on site ids (for all sites `a`, `b`, `b` appears in the final
list of `a` iff `a` appears in the final list of `b`), and the pass never
appends a negative wall-marker value (every negative entry of a final list
was already in the corresponding raw list). -/
theorem C1_symmetrization (lists : List (List Int))
    (hwf : ∀ (a : Nat) (v : Int), v ∈ nthList lists a → 0 ≤ v →
      v.toNat < lists.length) :
    (∀ a b : Nat, a < lists.length → b < lists.length →
      ((b : Int) ∈ nthList (symmetrize lists) a ↔
        (a : Int) ∈ nthList (symmetrize lists) b)) ∧
    (∀ (a : Nat) (v : Int), v ∈ nthList (symmetrize lists) a → v < 0 →
      v ∈ nthList lists a) := by
  have hb : ∀ i ∈ List.range lists.length, i < lists.length := by
    intro i hi
    exact List.mem_range.1 hi
  obtain ⟨c1, c2, c3, c4, c5⟩ :=
    symFold lists.length (List.range lists.length) lists rfl hwf hb
  have hP : ∀ a : Nat, a < lists.length →
      ∀ v ∈ nthList (symmetrize lists) a, 0 ≤ v →
        (a : Int) ∈ nthList (symmetrize lists) v.toNat := by
    intro a ha
    exact c5 a (List.mem_range.2 ha)
  constructor
  · intro a b ha hb2
    constructor
    · intro hmem
      have := hP a ha ((b : Int)) hmem (by positivity)
      rwa [Int.toNat_natCast] at this
    · intro hmem
      have := hP b hb2 ((a : Int)) hmem (by positivity)
      rwa [Int.toNat_natCast] at this
  · intro a v hv hneg
    rcases c3 a v hv with h | h
    · exact h
    · omega

/-- Witness for C1 at the asymmetric input `[[1], []]` (site 0 lists site 1
but not conversely). -/
theorem C1_symmetrization_witness :
    ((1 : Int) ∈ nthList (symmetrize [[1], []]) 0 ↔
      (0 : Int) ∈ nthList (symmetrize [[1], []]) 1) := by
  have hwf : ∀ (a : Nat) (v : Int), v ∈ nthList [[1], []] a → 0 ≤ v →
      v.toNat < ([[1], []] : List (List Int)).length := by
    intro a v hv h0
    match a with
    | 0 =>
      simp [nthList] at hv
      subst hv
      decide
    | 1 => simp [nthList] at hv
    | (k + 2) => simp [nthList, List.getD] at hv
  have h := (C1_symmetrization [[1], []] hwf).1 0 1 (by decide) (by decide)
  exact_mod_cast h

/-! ## Packing lemmas -/

theorem getD_replicate {α : Type} (a d : α) :
    ∀ (n m : Nat), m < n → (List.replicate n a).getD m d = a := by
  intro n
  induction n with
  | zero => intro m h; omega
  | succ n ih =>
    intro m h
    cases m with
    | zero => rfl
    | succ m => exact ih m (by omega)

theorem map_getD {α β : Type} (f : α → β) (l : List α) (i : Nat)
    (hi : i < l.length) (d : β) (d2 : α) :
    (l.map f).getD i d = f (l.getD i d2) := by
  rw [List.getD_eq_getElem?_getD, List.getD_eq_getElem?_getD,
    List.getElem?_map, List.getElem?_eq_getElem hi]
  rfl

theorem getD_mem {α : Type} (l : List α) (i : Nat) (d : α)
    (hi : i < l.length) : l.getD i d ∈ l := by
  rw [List.getD_eq_getElem?_getD, List.getElem?_eq_getElem hi]
  exact List.getElem_mem _

theorem max_element_size_spec {α : Type} (ls : List (List α))
    (hne : ls ≠ []) :
    ∃ M, max_element_size ls = some M ∧ (∀ l ∈ ls, l.length ≤ M) ∧
      ∃ l ∈ ls, l.length = M := by
  obtain ⟨M, hM⟩ : ∃ M, (ls.map List.length).max? = some M := by
    cases ls with
    | nil => exact absurd rfl hne
    | cons a l => exact ⟨_, rfl⟩
  refine ⟨M, hM, ?_, ?_⟩
  · intro l hl
    exact (List.max?_le_iff (fun a b c => max_le_iff) hM).1 (le_refl M) _
      (List.mem_map_of_mem _ hl)
  · obtain ⟨l, hl, hlen⟩ :=
      List.mem_map.1 (List.max?_mem (fun a b => max_choice a b) hM)
    exact ⟨l, hl, hlen⟩

theorem pack_row_generic {α : Type} (l : List α) (M : Nat) (pad d : α)
    (hle : l.length ≤ M) :
    (l ++ List.replicate (M - l.length) pad).length = M ∧
    ∀ j, j < M → (l ++ List.replicate (M - l.length) pad).getD j d =
      if j < l.length then l.getD j d else pad := by
  constructor
  · simp only [List.length_append, List.length_replicate]
    omega
  · intro j hj
    by_cases hjl : j < l.length
    · rw [if_pos hjl, List.getD_append _ _ _ _ hjl]
    · rw [if_neg hjl, List.getD_append_right _ _ _ _ (by omega)]
      exact getD_replicate _ _ _ _ (by omega)

theorem foldl_symInner_length :
    ∀ (idxs : List Nat) (ls : List (List Int)),
      (idxs.foldl (fun acc idx => symInner idx acc) ls).length = ls.length := by
  intro idxs
  induction idxs with
  | nil => intro ls; rfl
  | cons i idxs ih =>
    intro ls
    show (idxs.foldl (fun acc idx => symInner idx acc)
      (symInner i ls)).length = ls.length
    rw [ih, symInner_length]

theorem symmetrize_length (lists : List (List Int)) :
    (symmetrize lists).length = lists.length :=
  foldl_symInner_length _ _

/-- Claim C8: `max_nn` is the maximum post-symmetrization neighbour-list
length; row `i` of the packed neighbour matrix is site i's list in order
followed by the sentinel `-10` in every remaining slot; vertex rows are
likewise padded with NaN (`none`) to the maximal vertex-coordinate count. -/
theorem C8_dense_packing (raw : List (List Int)) (vs : List (List ℚ))
    (hraw : raw ≠ []) (hvs : vs ≠ []) :
    ((∀ l ∈ symmetrize raw,
        l.length ≤ (max_element_size (symmetrize raw)).getD 0) ∧
      (∃ l ∈ symmetrize raw,
        l.length = (max_element_size (symmetrize raw)).getD 0) ∧
      (packNeighbours (symmetrize raw)).length = (symmetrize raw).length ∧
      (∀ i, i < (symmetrize raw).length →
        ((packNeighbours (symmetrize raw)).getD i []).length =
          (max_element_size (symmetrize raw)).getD 0 ∧
        ∀ j, j < (max_element_size (symmetrize raw)).getD 0 →
          ((packNeighbours (symmetrize raw)).getD i []).getD j 0 =
            if j < ((symmetrize raw).getD i []).length
            then ((symmetrize raw).getD i []).getD j 0 else -10)) ∧
    ((∀ l ∈ vs, l.length ≤ (max_element_size vs).getD 0) ∧
      (∃ l ∈ vs, l.length = (max_element_size vs).getD 0) ∧
      (packVertices vs).length = vs.length ∧
      (∀ i, i < vs.length →
        ((packVertices vs).getD i []).length =
          (max_element_size vs).getD 0 ∧
        ∀ j, j < (max_element_size vs).getD 0 →
          ((packVertices vs).getD i []).getD j none =
            if j < (vs.getD i []).length
            then some ((vs.getD i []).getD j 0) else none)) := by
  constructor
  · have hne : symmetrize raw ≠ [] := by
      intro h
      apply hraw
      have := symmetrize_length raw
      rw [h] at this
      exact List.length_eq_zero.1 this.symm
    obtain ⟨M, hM, hub, hex⟩ := max_element_size_spec (symmetrize raw) hne
    have hMg : (max_element_size (symmetrize raw)).getD 0 = M := by
      rw [hM]; rfl
    rw [hMg]
    refine ⟨hub, hex, by simp [packNeighbours], ?_⟩
    intro i hi
    have hrow : (packNeighbours (symmetrize raw)).getD i [] =
        ((symmetrize raw).getD i []) ++
          List.replicate (M - ((symmetrize raw).getD i []).length) (-10) := by
      unfold packNeighbours
      rw [map_getD _ _ _ hi _ [], hMg]
    have hle : ((symmetrize raw).getD i []).length ≤ M :=
      hub _ (getD_mem _ _ _ hi)
    obtain ⟨hl1, hl2⟩ := pack_row_generic ((symmetrize raw).getD i []) M
      (-10 : Int) 0 hle
    rw [hrow]
    exact ⟨hl1, hl2⟩
  · obtain ⟨M, hM, hub, hex⟩ := max_element_size_spec vs hvs
    have hMg : (max_element_size vs).getD 0 = M := by rw [hM]; rfl
    rw [hMg]
    refine ⟨hub, hex, by simp [packVertices], ?_⟩
    intro i hi
    have hrow : (packVertices vs).getD i [] =
        ((vs.getD i []).map some) ++
          List.replicate (M - (vs.getD i []).length) (none : Option ℚ) := by
      unfold packVertices
      rw [map_getD _ _ _ hi _ [], hMg]
    have hle : (vs.getD i []).length ≤ M := hub _ (getD_mem _ _ _ hi)
    have hlemap : ((vs.getD i []).map some).length ≤ M := by
      rw [List.length_map]; exact hle
    obtain ⟨hl1, hl2⟩ := pack_row_generic ((vs.getD i []).map some) M
      (none : Option ℚ) none hlemap
    rw [hrow]
    constructor
    · rw [show M - (vs.getD i []).length =
        M - ((vs.getD i []).map some).length by rw [List.length_map]]
      exact hl1
    · intro j hj
      rw [show M - (vs.getD i []).length =
        M - ((vs.getD i []).map some).length by rw [List.length_map]]
      rw [hl2 j hj]
      by_cases hjl : j < (vs.getD i []).length
      · rw [if_pos hjl, if_pos (by rw [List.length_map]; exact hjl)]
        rw [map_getD _ _ _ hjl _ 0]
      · rw [if_neg hjl, if_neg (by rw [List.length_map]; exact hjl)]

/-- Witness for C8 at two sites with neighbour lists `[1]` and `[0]` and one
vertex row. -/
theorem C8_dense_packing_witness :
    (packNeighbours (symmetrize [[1], [0]])).length =
      (symmetrize [[1], [0]]).length :=
  (C8_dense_packing [[1], [0]] [[1]] (by simp) (by simp)).1.2.2.1

/-- Claim C9: the call returns the null/success result exactly when no
internal failure occurred, and then every requested output buffer is
assigned (`vertices` iff requested, `sample_points` iff requested); on any
failure it returns the wrapped human-readable message of the underlying
exception and no output record exists; a diverging sampling loop returns
nothing at all. -/
theorem C9_error_contract (tag : String) (args : List ℚ)
    (cells : Except String (List CellData)) (wv ws : Bool) (ns : Nat)
    (rands : Nat → ℚ) (fuel : Nat) :
    (∀ out, hyperion_voropp_wrap tag args cells wv ws ns rands fuel =
        some (.ok out) →
      exceptIsErr (add_walls tag args) = false ∧ exceptIsErr cells = false ∧
      out.vertices.isSome = wv ∧ out.sample_points.isSome = ws) ∧
    (∀ e, hyperion_voropp_wrap tag args cells wv ws ns rands fuel =
        some (.error e) →
      ∃ msg, e = wrapMsg msg ∧
        (add_walls tag args = .error msg ∨ cells = .error msg)) ∧
    ((exceptIsErr (add_walls tag args) = true ∨ exceptIsErr cells = true) →
      ∃ msg, hyperion_voropp_wrap tag args cells wv ws ns rands fuel =
        some (.error (wrapMsg msg))) ∧
    (∀ cs, cells = .ok cs → exceptIsErr (add_walls tag args) = false →
      (if ws then sampleAllCells cs ns rands 0 fuel
        else some []).isSome = true →
      ∃ out, hyperion_voropp_wrap tag args cells wv ws ns rands fuel =
        some (.ok out)) := by
  cases haw : add_walls tag args with
  | error e =>
    have hw : hyperion_voropp_wrap tag args cells wv ws ns rands fuel =
        some (.error (wrapMsg e)) := by
      unfold hyperion_voropp_wrap
      rw [haw]
    refine ⟨?_, ?_, ?_, ?_⟩
    · intro out hout
      rw [hw] at hout
      simp at hout
    · intro e2 he2
      rw [hw] at he2
      have he : wrapMsg e = e2 := by simpa using he2
      exact ⟨e, he.symm, Or.inl rfl⟩
    · intro _
      exact ⟨e, hw⟩
    · intro cs hcs hok hsome
      simp [exceptIsErr] at hok
  | ok w =>
    have hokw : exceptIsErr (add_walls tag args) = false := by
      rw [haw]; rfl
    cases hcells : cells with
    | error e =>
      have hw : hyperion_voropp_wrap tag args (.error e) wv ws ns rands
          fuel = some (.error (wrapMsg e)) := by
        unfold hyperion_voropp_wrap
        rw [haw]
      refine ⟨?_, ?_, ?_, ?_⟩
      · intro out hout
        rw [hw] at hout
        simp at hout
      · intro e2 he2
        rw [hw] at he2
        have he : wrapMsg e = e2 := by simpa using he2
        exact ⟨e, he.symm, Or.inr rfl⟩
      · intro _
        exact ⟨e, hw⟩
      · intro cs hcs hok hsome
        simp at hcs
    | ok cs =>
      cases hsamp : (if ws then sampleAllCells cs ns rands 0 fuel
          else some []) with
      | none =>
        have hw : hyperion_voropp_wrap tag args (.ok cs) wv ws ns rands
            fuel = none := by
          unfold hyperion_voropp_wrap
          rw [haw]
          dsimp only
          rw [hsamp]
        refine ⟨?_, ?_, ?_, ?_⟩
        · intro out hout
          rw [hw] at hout
          simp at hout
        · intro e2 he2
          rw [hw] at he2
          simp at he2
        · intro h
          rcases h with h | h
          · simp [exceptIsErr] at h
          · simp [exceptIsErr] at h
        · intro cs2 hcs2 hok hsome
          have : cs2 = cs := by
            injection hcs2 with h
            exact h.symm
          subst this
          rw [hsamp] at hsome
          simp at hsome
      | some sps =>
        refine ⟨?_, ?_, ?_, ?_⟩
        · intro out hout
          unfold hyperion_voropp_wrap at hout
          rw [haw] at hout
          dsimp only at hout
          rw [hsamp] at hout
          refine ⟨rfl, rfl, ?_, ?_⟩
          · have := (Option.some.inj hout)
            have hv : out.vertices = if wv then
                some (packVertices (cs.map CellData.verts)) else none := by
              rw [← Except.ok.inj this]
            rw [hv]
            cases wv <;> simp
          · have := (Option.some.inj hout)
            have hs : out.sample_points = if ws then some sps else none := by
              rw [← Except.ok.inj this]
            rw [hs]
            cases ws with
            | true => simp
            | false => simp
        · intro e2 he2
          unfold hyperion_voropp_wrap at he2
          rw [haw] at he2
          dsimp only at he2
          rw [hsamp] at he2
          simp at he2
        · intro h
          rcases h with h | h
          · simp [exceptIsErr] at h
          · simp [exceptIsErr] at h
        · intro cs2 hcs2 hok hsome
          have : cs2 = cs := by
            injection hcs2 with h
            exact h.symm
          subst this
          have hw2 : hyperion_voropp_wrap tag args (.ok cs2) wv ws ns rands
              fuel = some (.ok {
                max_nn := (max_element_size
                  (symmetrize (cs2.map CellData.neighbors))).getD 0
                neighbours := packNeighbours
                  (symmetrize (cs2.map CellData.neighbors))
                volumes := cs2.map CellData.volume
                bb_min := cs2.map fun c => bboxMin c.verts
                bb_max := cs2.map fun c => bboxMax c.verts
                max_nv := if wv then
                    (max_element_size (cs2.map CellData.verts)).getD 0
                  else 0
                vertices := if wv then
                    some (packVertices (cs2.map CellData.verts))
                  else none
                sample_points := if ws then some sps else none }) := by
            unfold hyperion_voropp_wrap
            rw [haw]
            dsimp only
            rw [hsamp]
          exact ⟨_, hw2⟩

/-- Witness for C9: an unrecognized wall tag, an empty engine result, no
vertices, no sampling: the call succeeds. -/
theorem C9_error_contract_witness :
    ∃ out, hyperion_voropp_wrap "plane" [] (.ok []) false false 0
      (fun _ => 0) 0 = some (.ok out) :=
  (C9_error_contract "plane" [] (.ok []) false false 0 (fun _ => 0) 0).2.2.2
    [] rfl (by decide) rfl

end Hyperion
